import Mathlib

set_option maxRecDepth 100000

/-!
Verification of the binary image parser in src/imgpack.py.

Modelling conventions:
- A Python bytes object is a `List Nat` (well-formed buffers hold values
  below 256; the definitions are total on all of `List Nat`).
- Python slicing `buf[a:b]` with nonnegative indices clamps both ends to
  the buffer length; `pySlice` reproduces that with `drop`/`take` and
  truncated `Nat` subtraction.
- Python integers are unbounded, so `start + size` is plain `Nat`
  addition: no wraparound exists in the model, exactly as in the source.
- The only exceptions the parsing code can raise are a
  `UnicodeDecodeError` from `bytes.decode()` (which carries byte-level
  information but no item index or field name) and an `IndexError` from
  the single-integer indexing `item[0x220]`.  They are modelled by the
  inductive `PyErr`; fallible code returns `Except PyErr`.
- Decoded text is represented by its UTF-8 byte sequence: `pyDecode`
  validates strict UTF-8 (what `bytes.decode()` checks) and returns the
  bytes unchanged on success.
-/

/-- Python slice buf[a:b] for nonnegative a, b: both indices clamped to the
buffer length, empty when b is at most a. -/
def pySlice (buf : List Nat) (a b : Nat) : List Nat :=
  (buf.drop a).take (b - a)

/-- Little-endian unsigned interpretation of a byte list, as in
int.from_bytes(buf, little). -/
def fromLEBytes : List Nat → Nat
  | [] => 0
  | b :: rest => b + 256 * fromLEBytes rest

/-- uint32 from src/imgpack.py: int.from_bytes(buf[offset:offset+4], little). -/
def uint32 (buf : List Nat) (offset : Nat) : Nat :=
  fromLEBytes (pySlice buf offset (offset + 4))

/-- uint64 from src/imgpack.py: int.from_bytes(buf[offset:offset+8], little). -/
def uint64 (buf : List Nat) (offset : Nat) : Nat :=
  fromLEBytes (pySlice buf offset (offset + 8))

/-- Python bytes.rstrip applied with a single null byte: remove every
trailing zero byte. -/
def rstripZero (l : List Nat) : List Nat :=
  (l.reverse.dropWhile (fun b => b == 0)).reverse

/-- A UTF-8 continuation byte, 0x80 to 0xBF. -/
def utf8Cont (c : Nat) : Bool := 0x80 ≤ c && c ≤ 0xBF

/-- Allowed second byte after a three-byte leader (E0 forbids overlong
encodings, ED forbids surrogates). -/
def utf8Second (b c : Nat) : Bool :=
  if b == 0xE0 then 0xA0 ≤ c && c ≤ 0xBF
  else if b == 0xED then 0x80 ≤ c && c ≤ 0x9F
  else utf8Cont c

/-- Allowed second byte after a four-byte leader (F0 forbids overlong
encodings, F4 caps at U+10FFFF). -/
def utf8SecondF (b c : Nat) : Bool :=
  if b == 0xF0 then 0x90 ≤ c && c ≤ 0xBF
  else if b == 0xF4 then 0x80 ≤ c && c ≤ 0x8F
  else utf8Cont c

/-- Strict UTF-8 validity, the check performed by Python bytes.decode(). -/
def utf8Valid : List Nat → Bool
  | [] => true
  | b :: rest =>
    if b ≤ 0x7F then utf8Valid rest
    else if b < 0xC2 then false
    else if b ≤ 0xDF then
      match rest with
      | c :: r => utf8Cont c && utf8Valid r
      | [] => false
    else if b ≤ 0xEF then
      match rest with
      | c :: d :: r => utf8Second b c && utf8Cont d && utf8Valid r
      | _ => false
    else if b ≤ 0xF4 then
      match rest with
      | c :: d :: e :: r => utf8SecondF b c && utf8Cont d && utf8Cont e && utf8Valid r
      | _ => false
    else false

/-- The exceptions the parsing code in src/imgpack.py can raise.  A
UnicodeDecodeError carries byte positions within the decoded field but no
item index and no field name; an IndexError carries only the bad index.
Neither identifies which record or which record field was at fault, so
both are modelled as bare constructors. -/
inductive PyErr where
  | unicodeDecodeError
  | indexError
deriving DecidableEq, Repr, Inhabited

/-- Decidable equality of Except values, needed to evaluate parse
results on concrete buffers. -/
instance {ε α : Type} [DecidableEq ε] [DecidableEq α] : DecidableEq (Except ε α) := fun a b =>
  match a, b with
  | .ok x, .ok y =>
    if h : x = y then .isTrue (by rw [h])
    else .isFalse (by intro hc; injection hc; exact h ‹_›)
  | .error x, .error y =>
    if h : x = y then .isTrue (by rw [h])
    else .isFalse (by intro hc; injection hc; exact h ‹_›)
  | .ok _, .error _ => .isFalse (fun hc => Except.noConfusion hc)
  | .error _, .ok _ => .isFalse (fun hc => Except.noConfusion hc)

/-- Python bytes.decode() with the default strict UTF-8 codec, returning
the decoded text represented by its UTF-8 bytes. -/
def pyDecode (l : List Nat) : Except PyErr (List Nat) :=
  if utf8Valid l then .ok l else .error .unicodeDecodeError

/-- AmlResItem from src/imgpack.py.  The data field of the source (the
payload slice) is never None in parsed items, so it is a plain list. -/
structure AmlResItem where
  start : Nat
  size : Nat
  type : List Nat
  name : List Nat
  to_flash : Bool
  data : List Nat
deriving DecidableEq, Repr, Inhabited

/-- AmlResItem.from_img from src/imgpack.py, line for line:
start and size are uint64 reads at 0x10 and 0x18; the type field decode
runs before the name field decode, which runs before the flag byte read
item[0x220] (single-integer indexing: IndexError when the record slice is
too short); the payload is the clamped slice img[start : start + size]. -/
def AmlResItem.from_img (item img : List Nat) : Except PyErr AmlResItem :=
  let start := uint64 item 0x10
  let size := uint64 item 0x18
  match pyDecode (rstripZero (pySlice item 0x20 0x120)) with
  | .error e => .error e
  | .ok ty =>
    match pyDecode (rstripZero (pySlice item 0x120 0x220)) with
    | .error e => .error e
    | .ok nm =>
      match item[0x220]? with
      | none => .error .indexError
      | some b =>
        .ok ⟨start, size, ty, nm, b &&& 1 == 1, pySlice img start (start + size)⟩

/-- AmlResImg from src/imgpack.py. -/
structure AmlResImg where
  crc : Nat
  version : Nat
  magic : List Nat
  items : List AmlResItem
deriving DecidableEq, Repr, Inhabited

/-- One iteration of the parse loop: the fixed record slice
img[0x40 + 0x240 * i : 0x40 + 0x240 * i + 0x240] fed to
AmlResItem.from_img. -/
def parseItemAt (img : List Nat) (i : Nat) : Except PyErr AmlResItem :=
  AmlResItem.from_img (pySlice img (0x40 + 0x240 * i) (0x40 + 0x240 * i + 0x240)) img

/-- The parse loop for indices i, i+1, ..., i+k-1, in order; the first
exception aborts the loop, as in Python. -/
def parseItemsAux (img : List Nat) : Nat → Nat → Except PyErr (List AmlResItem)
  | _, 0 => .ok []
  | i, k + 1 =>
    match parseItemAt img i with
    | .error e => .error e
    | .ok it =>
      match parseItemsAux img (i + 1) k with
      | .error e => .error e
      | .ok rest => .ok (it :: rest)

/-- AmlResImg.from_img from src/imgpack.py: header scalars are clamped
reads that never fail, then the item loop runs for uint32(img, 0x18)
iterations.  The source computes crc, version and magic before the loop;
those reads are pure and cannot fail, so the order is immaterial. -/
def AmlResImg.from_img (img : List Nat) : Except PyErr AmlResImg :=
  match parseItemsAux img 0 (uint32 img 0x18) with
  | .error e => .error e
  | .ok items => .ok ⟨uint32 img 0x00, uint32 img 0x04, pySlice img 0x08 0x10, items⟩

/-- The bytes of img at positions a, a+1, ..., b-1, read individually;
meaningful when b is at most the length of img. -/
def bytesInRange (img : List Nat) (a b : Nat) : List Nat :=
  (List.range (b - a)).map (fun j => img.getD (a + j) 0)

/-! Concrete buffers used as witnesses and counterexamples.  mkBuf builds
a 0x40-byte header whose only nonzero field is item_count (stored
little-endian at 0x18; counts below 256 need one byte), followed by the
given record bytes. -/

/-- Header of 0x40 bytes, all zero except the item count at 0x18, then
the record area. -/
def mkBuf (count : Nat) (recs : List Nat) : List Nat :=
  List.replicate 0x18 0 ++ [count, 0, 0, 0] ++ List.replicate 0x24 0 ++ recs

/-- UTF-8 bytes of the text disk1.img. -/
def diskName : List Nat := [100, 105, 115, 107, 49, 46, 105, 109, 103]

/-- A full zero record except size = 4: payload is the first four bytes
of the image. -/
def recOk : List Nat := List.replicate 0x18 0 ++ [4] ++ List.replicate 0x227 0

/-- A well-formed one-item image, 0x280 bytes. -/
def buf1 : List Nat := mkBuf 1 recOk

/-- A record declaring size = 2 ^ 40 with start = 0: start + size far
exceeds any real buffer. -/
def recBig : List Nat := List.replicate 0x1D 0 ++ [1] ++ List.replicate 0x222 0

/-- A one-item image whose single record declares a 2 ^ 40 byte payload. -/
def buf2 : List Nat := mkBuf 1 recBig

/-- A record with start = 2 ^ 64 - 1 (eight 0xFF bytes) and size = 16:
the spec scenario of a start near the maximum 64-bit value with nonzero
size. -/
def recMax : List Nat :=
  List.replicate 0x10 0 ++ List.replicate 8 255 ++ [16] ++ List.replicate 0x227 0

/-- A one-item image whose record has start = 2 ^ 64 - 1, size = 16. -/
def buf6 : List Nat := mkBuf 1 recMax

/-- Image declaring item_count = 5 with room for exactly one record
(length 0x280): the spec truncated-table scenario. -/
def buf3 : List Nat := mkBuf 5 (List.replicate 0x240 0)

/-- Image declaring item_count = 1 but only 0x221 record bytes
(length 0x261, short of the required 0x280), yet the flag byte of record
zero is still inside the buffer. -/
def buf3b : List Nat := mkBuf 1 (List.replicate 0x221 0)

/-- A record slice of only 0x30 bytes whose type field begins with 0xFF,
an invalid UTF-8 byte. -/
def recShortBad : List Nat := List.replicate 0x20 0 ++ [255] ++ List.replicate 0x0F 0

/-- Image with one short record carrying invalid UTF-8 in its type
field. -/
def buf7 : List Nat := mkBuf 1 recShortBad

/-- A full record whose type field starts with the invalid byte 0xFF. -/
def recBadType : List Nat := List.replicate 0x20 0 ++ [255] ++ List.replicate 0x21F 0

/-- Image whose single record has an invalid type field. -/
def buf8 : List Nat := mkBuf 1 recBadType

/-- A full record whose name field starts with the invalid byte 0xFF. -/
def recBadName : List Nat := List.replicate 0x120 0 ++ [255] ++ List.replicate 0x11F 0

/-- Image whose single record has an invalid name field. -/
def buf8b : List Nat := mkBuf 1 recBadName

/-- A 0x221-byte record whose name field holds disk1.img padded with
null bytes. -/
def recDisk : List Nat :=
  List.replicate 0x120 0 ++ diskName ++ List.replicate 247 0 ++ [0]

/-- A 0x221-byte record that is all zero except the flag byte. -/
def flagRec (b : Nat) : List Nat := List.replicate 0x220 0 ++ [b]

/-- The image parsed from buf1. -/
def res1 : AmlResImg :=
  match AmlResImg.from_img buf1 with
  | .ok v => v
  | .error _ => default

/-- The single item of res1. -/
def item1 : AmlResItem := res1.items.headD default

/-- The item parsed from the oversized-size record of buf2. -/
def item2 : AmlResItem :=
  match AmlResItem.from_img (pySlice buf2 0x40 0x280) buf2 with
  | .ok v => v
  | .error _ => default

/-- The item parsed from the near-maximal-start record of buf6. -/
def item6 : AmlResItem :=
  match AmlResItem.from_img (pySlice buf6 0x40 0x280) buf6 with
  | .ok v => v
  | .error _ => default

/-- The item parsed from a zero record with flag byte 3. -/
def item7 : AmlResItem :=
  match AmlResItem.from_img (flagRec 3) [] with
  | .ok v => v
  | .error _ => default

/-! Helper lemmas about the byte-level primitives. -/

/-- fromLEBytes of an all-zero list is zero. -/
theorem fromLEBytes_replicate_zero (n : Nat) : fromLEBytes (List.replicate n 0) = 0 := by
  induction n with
  | zero => rfl
  | succ k ih => simp [List.replicate_succ, fromLEBytes, ih]

/-- rstripZero erases an all-zero list. -/
theorem rstripZero_replicate_zero (n : Nat) : rstripZero (List.replicate n 0) = [] := by
  simp [rstripZero, List.reverse_replicate, List.dropWhile_replicate]

/-- The head surviving a dropWhile over the zero test is nonzero. -/
theorem head?_dropWhile_zero :
    ∀ (xs : List Nat) (a : Nat),
      (xs.dropWhile (fun b => b == 0)).head? = some a → (a == 0) = false := by
  intro xs
  induction xs with
  | nil => intro a h; simp [List.dropWhile] at h
  | cons b t ih =>
    intro a h
    rw [List.dropWhile_cons] at h
    by_cases hb : (b == 0) = true
    · rw [if_pos hb] at h
      exact ih a h
    · rw [if_neg hb] at h
      simp only [List.head?] at h
      injection h with h
      rw [← h]
      exact Bool.eq_false_iff.mpr hb

/-- dropWhile is idempotent. -/
theorem dropWhile_zero_idem (l : List Nat) :
    (l.dropWhile (fun b => b == 0)).dropWhile (fun b => b == 0) =
      l.dropWhile (fun b => b == 0) := by
  induction l with
  | nil => rfl
  | cons b t ih =>
    rw [List.dropWhile_cons]
    by_cases hb : (b == 0) = true
    · rw [if_pos hb]; exact ih
    · rw [if_neg hb, List.dropWhile_cons, if_neg hb]

/-- The zero-prefix taken by takeWhile is literally a replicate of zeros. -/
theorem takeWhile_zero_replicate (l : List Nat) :
    l.takeWhile (fun b => b == 0) =
      List.replicate (l.takeWhile (fun b => b == 0)).length 0 := by
  induction l with
  | nil => rfl
  | cons b t ih =>
    rw [List.takeWhile_cons]
    by_cases hb : (b == 0) = true
    · rw [if_pos hb]
      have hb0 : b = 0 := by simpa using hb
      subst hb0
      simp only [List.length_cons, List.replicate_succ]
      rw [← ih]
    · rw [if_neg hb]
      rfl

/-- rstripZero is idempotent. -/
theorem rstripZero_idem (l : List Nat) : rstripZero (rstripZero l) = rstripZero l := by
  simp only [rstripZero, List.reverse_reverse]
  rw [dropWhile_zero_idem]

/-- rstripZero removes exactly a trailing block of zero bytes: the input
is the trimmed output followed by replicated zeros. -/
theorem rstripZero_spec (l : List Nat) :
    l = rstripZero l ++ List.replicate (l.length - (rstripZero l).length) 0 := by
  have h1 : List.takeWhile (fun b => b == 0) l.reverse ++
      List.dropWhile (fun b => b == 0) l.reverse = l.reverse :=
    List.takeWhile_append_dropWhile _ _
  have h3 : l = rstripZero l ++ (List.takeWhile (fun b => b == 0) l.reverse).reverse := by
    calc l = l.reverse.reverse := (List.reverse_reverse l).symm
    _ = (List.takeWhile (fun b => b == 0) l.reverse ++
          List.dropWhile (fun b => b == 0) l.reverse).reverse := by rw [h1]
    _ = (List.dropWhile (fun b => b == 0) l.reverse).reverse ++
          (List.takeWhile (fun b => b == 0) l.reverse).reverse := by
        rw [List.reverse_append]
    _ = rstripZero l ++ (List.takeWhile (fun b => b == 0) l.reverse).reverse := rfl
  have h4 : (rstripZero l).length = (List.dropWhile (fun b => b == 0) l.reverse).length := by
    simp [rstripZero]
  have h5 : (List.takeWhile (fun b => b == 0) l.reverse).length +
      (List.dropWhile (fun b => b == 0) l.reverse).length = l.length := by
    have h6 := congrArg List.length h1
    rw [List.length_append, List.length_reverse] at h6
    exact h6
  have hlen : (List.takeWhile (fun b => b == 0) l.reverse).length =
      l.length - (rstripZero l).length := by omega
  calc l = rstripZero l ++ (List.takeWhile (fun b => b == 0) l.reverse).reverse := h3
  _ = rstripZero l ++ List.replicate (l.length - (rstripZero l).length) 0 := by
      rw [takeWhile_zero_replicate l.reverse, List.reverse_replicate, hlen]

/-- The last byte surviving rstripZero is never zero. -/
theorem rstripZero_getLast? (l : List Nat) : (rstripZero l).getLast? ≠ some 0 := by
  intro h
  rw [rstripZero, List.getLast?_reverse] at h
  have := head?_dropWhile_zero l.reverse 0 h
  simp at this

/-- Length of a Python slice. -/
theorem pySlice_length (l : List Nat) (a b : Nat) :
    (pySlice l a b).length = min (b - a) (l.length - a) := by
  simp [pySlice, List.length_take, List.length_drop]

/-- Entries of a Python slice are the buffer entries shifted by the left
endpoint. -/
theorem pySlice_getElem (l : List Nat) (a b i : Nat) (h : i < (pySlice l a b).length)
    (h2 : a + i < l.length) : (pySlice l a b)[i] = l[a + i] := by
  simp only [pySlice] at h ⊢
  rw [List.getElem_take, List.getElem_drop]

/-- When the right endpoint is inside the buffer, the Python slice is the
elementwise extraction of positions a, a+1, ..., b-1. -/
theorem pySlice_eq_bytesInRange (l : List Nat) (a b : Nat) (hb : b ≤ l.length) :
    pySlice l a b = bytesInRange l a b := by
  apply List.ext_getElem
  · simp only [pySlice_length, bytesInRange, List.length_map, List.length_range]
    omega
  · intro i h1 h2
    have hlen : i < b - a := by
      simpa [bytesInRange] using h2
    have hia : a + i < l.length := by omega
    rw [pySlice_getElem l a b i h1 hia]
    simp only [bytesInRange, List.getElem_map, List.getElem_range]
    rw [List.getD_eq_getElem?_getD, List.getElem?_eq_getElem hia]
    rfl

/-! Inversion lemmas for the record and image decoders. -/

/-- A successful pyDecode returns its input unchanged. -/
theorem pyDecode_ok_eq (l m : List Nat) (h : pyDecode l = .ok m) : m = l := by
  unfold pyDecode at h
  split at h
  · injection h with h; exact h.symm
  · exact Except.noConfusion h

/-- A successful pyDecode means the bytes are valid UTF-8. -/
theorem pyDecode_ok_valid (l m : List Nat) (h : pyDecode l = .ok m) : utf8Valid l = true := by
  unfold pyDecode at h
  split at h
  · assumption
  · exact Except.noConfusion h

/-- Inversion of AmlResItem.from_img on success: every field of the item
is the corresponding decoded field of the record slice, and the payload
is the clamped slice of the image at [start, start + size). -/
theorem from_img_ok (item img : List Nat) (it : AmlResItem)
    (h : AmlResItem.from_img item img = .ok it) :
    it.start = uint64 item 0x10 ∧ it.size = uint64 item 0x18 ∧
    it.type = rstripZero (pySlice item 0x20 0x120) ∧
    it.name = rstripZero (pySlice item 0x120 0x220) ∧
    (∃ b, item[0x220]? = some b ∧ it.to_flash = (b &&& 1 == 1)) ∧
    it.data = pySlice img (uint64 item 0x10) (uint64 item 0x10 + uint64 item 0x18) := by
  unfold AmlResItem.from_img at h
  split at h
  · exact Except.noConfusion h
  · rename_i ty hT
    split at h
    · exact Except.noConfusion h
    · rename_i nm hN
      split at h
      · exact Except.noConfusion h
      · rename_i b hB
        injection h with h
        subst h
        refine ⟨rfl, rfl, ?_, ?_, ⟨b, hB, rfl⟩, rfl⟩
        · exact pyDecode_ok_eq _ _ hT
        · exact pyDecode_ok_eq _ _ hN

/-- Decoding an empty record slice reaches the flag-byte read and raises
IndexError. -/
theorem from_img_nil (img : List Nat) :
    AmlResItem.from_img [] img = .error .indexError := rfl

/-- A record slice that ends at or before its flag byte raises
IndexError, provided both text fields decode (the text decodes run
first in the source). -/
theorem from_img_short (item img : List Nat) (hlen : item.length ≤ 0x220)
    (ht : utf8Valid (rstripZero (pySlice item 0x20 0x120)) = true)
    (hn : utf8Valid (rstripZero (pySlice item 0x120 0x220)) = true) :
    AmlResItem.from_img item img = .error .indexError := by
  unfold AmlResItem.from_img
  rw [show pyDecode (rstripZero (pySlice item 0x20 0x120)) =
      .ok (rstripZero (pySlice item 0x20 0x120)) from by simp [pyDecode, ht]]
  rw [show pyDecode (rstripZero (pySlice item 0x120 0x220)) =
      .ok (rstripZero (pySlice item 0x120 0x220)) from by simp [pyDecode, hn]]
  rw [List.getElem?_eq_none hlen]

/-- Inversion of the parse loop on success: it yields exactly k items and
the j-th of them is the successful decode of record index i + j. -/
theorem parseItemsAux_ok (img : List Nat) :
    ∀ (k i : Nat) (l : List AmlResItem), parseItemsAux img i k = .ok l →
      l.length = k ∧ ∀ j (hj : j < l.length), parseItemAt img (i + j) = .ok (l.get ⟨j, hj⟩) := by
  intro k
  induction k with
  | zero =>
    intro i l h
    simp only [parseItemsAux] at h
    injection h with h
    subst h
    exact ⟨rfl, fun j hj => absurd hj (by simp)⟩
  | succ n ih =>
    intro i l h
    simp only [parseItemsAux] at h
    split at h
    · exact Except.noConfusion h
    · rename_i it h1
      split at h
      · exact Except.noConfusion h
      · rename_i rest h2
        injection h with h
        subst h
        obtain ⟨hlen, hget⟩ := ih (i + 1) rest h2
        refine ⟨by simp [hlen], ?_⟩
        intro j hj
        cases j with
        | zero => simpa using h1
        | succ m =>
          have hm : m < rest.length := by
            simp only [List.length_cons] at hj
            omega
          have hrec := hget m hm
          have harith : i + (m + 1) = i + 1 + m := by omega
          rw [harith]
          simpa using hrec

/-- If the loop decodes m records from index i and record i + m raises,
any run of more than m iterations starting at i raises the same error. -/
theorem parseItemsAux_error_of (img : List Nat) :
    ∀ (m i k : Nat) (l : List AmlResItem) (e : PyErr),
      parseItemsAux img i m = .ok l → parseItemAt img (i + m) = .error e → m < k →
      parseItemsAux img i k = .error e := by
  intro m
  induction m with
  | zero =>
    intro i k l e hok herr hlt
    cases k with
    | zero => omega
    | succ n =>
      simp only [Nat.add_zero] at herr
      simp only [parseItemsAux, herr]
  | succ n ih =>
    intro i k l e hok herr hlt
    simp only [parseItemsAux] at hok
    split at hok
    · exact Except.noConfusion hok
    · rename_i it h1
      split at hok
      · exact Except.noConfusion hok
      · rename_i rest h2
        cases k with
        | zero => omega
        | succ k2 =>
          have hrec : parseItemsAux img (i + 1) k2 = .error e := by
            apply ih (i + 1) k2 rest e h2 _ (by omega)
            have harith : i + 1 + n = i + (n + 1) := by omega
            rw [harith]
            exact herr
          simp only [parseItemsAux, h1, hrec]

/-- Inversion of AmlResImg.from_img on success: the loop succeeded for
uint32(img, 0x18) iterations and the header scalars are the clamped
little-endian reads. -/
theorem img_from_img_ok (img : List Nat) (res : AmlResImg)
    (h : AmlResImg.from_img img = .ok res) :
    parseItemsAux img 0 (uint32 img 0x18) = .ok res.items ∧
    res.crc = uint32 img 0x00 ∧ res.version = uint32 img 0x04 ∧
    res.magic = pySlice img 0x08 0x10 := by
  unfold AmlResImg.from_img at h
  split at h
  · exact Except.noConfusion h
  · rename_i items h2
    injection h with h
    subst h
    exact ⟨h2, rfl, rfl, rfl⟩

/-- pyDecode accepts the empty byte string. -/
theorem pyDecode_nil : pyDecode [] = .ok [] := rfl

/-- Any slice of flagRec that stays below the flag byte is all zero. -/
theorem pySlice_flagRec (b a c : Nat) (ha : a ≤ 0x220) (hc : c ≤ 0x220) :
    pySlice (flagRec b) a c = List.replicate (c - a) 0 := by
  unfold flagRec pySlice
  rw [List.drop_append_of_le_length (by simpa using ha)]
  rw [List.drop_replicate]
  rw [List.take_append_of_le_length (by simp only [List.length_replicate]; omega)]
  rw [List.take_replicate]
  rw [Nat.min_eq_left (by omega)]

/-- The flag byte of flagRec is its final byte. -/
theorem flagRec_getElem (b : Nat) : (flagRec b)[0x220]? = some b := by
  unfold flagRec
  rw [List.getElem?_append_right (by simp)]
  simp

/-- Decoding a record that is zero except for an arbitrary flag byte
always succeeds, whatever the flag byte holds, and to_flash is its least
significant bit. -/
theorem from_img_flagRec (b : Nat) :
    AmlResItem.from_img (flagRec b) [] = .ok ⟨0, 0, [], [], b &&& 1 == 1, []⟩ := by
  have hty : pySlice (flagRec b) 0x20 0x120 = List.replicate 0x100 0 := by
    have := pySlice_flagRec b 0x20 0x120 (by norm_num) (by norm_num)
    simpa using this
  have hnm : pySlice (flagRec b) 0x120 0x220 = List.replicate 0x100 0 := by
    have := pySlice_flagRec b 0x120 0x220 (by norm_num) (by norm_num)
    simpa using this
  have hs : uint64 (flagRec b) 0x10 = 0 := by
    rw [uint64, pySlice_flagRec b 0x10 (0x10 + 8) (by norm_num) (by norm_num),
      fromLEBytes_replicate_zero]
  have hz : uint64 (flagRec b) 0x18 = 0 := by
    rw [uint64, pySlice_flagRec b 0x18 (0x18 + 8) (by norm_num) (by norm_num),
      fromLEBytes_replicate_zero]
  simp only [AmlResItem.from_img, hty, hnm, rstripZero_replicate_zero, pyDecode_nil,
    flagRec_getElem, hs, hz]
  rfl

/-! Claim theorems. -/

/-- C1 counterexample: buf2 declares size = 2 ^ 40 with start = 0 over a
640-byte buffer.  Parse succeeds and returns the item, whose payload is
the whole buffer (length 640, not 2 ^ 40): the range [start, start+size)
does not lie within the buffer, refuting the claim that no item is ever
constructed with an out-of-range view. -/
theorem c1_counterexample :
    AmlResImg.from_img buf2 =
      .ok ⟨0, 0, List.replicate 8 0, [⟨0, 1099511627776, [], [], false, buf2⟩]⟩ ∧
    buf2.length < 0 + 1099511627776 :=
  ⟨by decide, by decide⟩

/-- C1 amended: every returned payload is the Python-clamped slice
img[start : start + size]; whenever start + size lies within the buffer
this is exactly the bytes at positions start..start+size-1, but when it
exceeds the buffer length the item is still returned, its payload
truncated at the buffer end. -/
theorem c1_payload_clamped (img : List Nat) (res : AmlResImg)
    (h : AmlResImg.from_img img = .ok res) :
    ∀ it ∈ res.items,
      it.data = pySlice img it.start (it.start + it.size) ∧
      (it.start + it.size ≤ img.length →
        it.data = bytesInRange img it.start (it.start + it.size)) := by
  intro it hit
  obtain ⟨hloop, -, -, -⟩ := img_from_img_ok img res h
  obtain ⟨hlen, hget⟩ := parseItemsAux_ok img (uint32 img 0x18) 0 res.items hloop
  obtain ⟨i, rfl⟩ := List.mem_iff_get.mp hit
  have hok := hget i.1 i.2
  simp only [parseItemAt, Nat.zero_add, Fin.eta] at hok
  obtain ⟨hst, hsz, -, -, -, hd⟩ := from_img_ok _ img _ hok
  constructor
  · rw [hd, hst, hsz]
  · intro hb
    rw [hst, hsz] at hb
    rw [hd, hst, hsz]
    exact pySlice_eq_bytesInRange img _ _ hb

/-- C1 witness: the amended theorem applied to the well-formed one-item
image buf1 and its item. -/
theorem c1_witness :
    item1.data = pySlice buf1 item1.start (item1.start + item1.size) ∧
    (item1.start + item1.size ≤ buf1.length →
      item1.data = bytesInRange buf1 item1.start (item1.start + item1.size)) :=
  c1_payload_clamped buf1 res1 (by decide) item1 (by decide)

/-- C2 counterexample: a record with start = 2 ^ 64 - 1 (the maximum
64-bit value) and size = 16 must, per the claim, fail with
ItemPayloadOutOfRange; instead parse succeeds, returning the item with a
silently empty payload. -/
theorem c2_counterexample :
    AmlResImg.from_img buf6 =
      .ok ⟨0, 0, List.replicate 8 0, [⟨18446744073709551615, 16, [], [], false, []⟩]⟩ := by
  decide

/-- C2 amended: the code performs no bounds check on start + size and no
such error exists; Python integers are unbounded so nothing wraps
around.  Whenever the record decodes and start is at or past the buffer
end, the payload is silently the empty slice. -/
theorem c2_out_of_range_silent (item img : List Nat) (it : AmlResItem)
    (h : AmlResItem.from_img item img = .ok it) (hs : img.length ≤ it.start) :
    it.data = [] := by
  obtain ⟨hst, -, -, -, -, hd⟩ := from_img_ok item img it h
  rw [hst] at hs
  rw [hd]
  unfold pySlice
  rw [List.drop_eq_nil_of_le hs]
  simp

/-- C2 witness: the amended theorem applied to the near-maximal-start
record of buf6. -/
theorem c2_witness : item6.data = [] :=
  c2_out_of_range_silent (pySlice buf6 0x40 0x280) buf6 item6 (by decide) (by decide)

/-- C3 counterexample: buf3b is shorter than the required
0x40 + 0x240 * item_count bytes, yet parse succeeds and returns an
Image instead of failing with any truncated-table diagnostic. -/
theorem c3_counterexample :
    buf3b.length < 0x40 + 0x240 * uint32 buf3b 0x18 ∧
    AmlResImg.from_img buf3b =
      .ok ⟨0, 0, List.replicate 8 0, [⟨0, 0, [], [], false, []⟩]⟩ :=
  ⟨by decide, by decide⟩

/-- C3 amended: the code has no table-length check.  In the spec
scenario of item_count = 5 over a buffer with room for exactly one
record, the loop decodes record zero, record one gets an empty slice,
and the flag-byte read raises an uncaught IndexError: that exception,
not a TruncatedItemTable error, is what aborts parse. -/
theorem c3_truncated_table_indexerror (img : List Nat) (it : AmlResItem)
    (h1 : img.length = 0x280) (h2 : uint32 img 0x18 = 5)
    (h0 : parseItemAt img 0 = .ok it) :
    AmlResImg.from_img img = .error .indexError := by
  have hone : parseItemsAux img 0 1 = .ok [it] := by
    simp only [parseItemsAux, h0]
  have hslice : pySlice img (0x40 + 0x240 * 1) (0x40 + 0x240 * 1 + 0x240) = [] := by
    unfold pySlice
    rw [List.drop_eq_nil_of_le (by omega)]
    simp
  have herr : parseItemAt img (0 + 1) = .error .indexError := by
    simp only [parseItemAt, Nat.zero_add, hslice, from_img_nil]
  have hloop := parseItemsAux_error_of img 1 0 5 [it] .indexError hone herr (by omega)
  unfold AmlResImg.from_img
  rw [h2, hloop]

/-- C3 witness: the amended theorem applied to buf3. -/
theorem c3_witness : AmlResImg.from_img buf3 = .error .indexError :=
  c3_truncated_table_indexerror buf3 ⟨0, 0, [], [], false, []⟩
    (by decide) (by decide) (by decide)

/-- C4 counterexample: the empty buffer is far shorter than 0x40 bytes,
yet parse succeeds and returns an Image with zero header scalars and no
items: no TruncatedHeader failure exists. -/
theorem c4_counterexample :
    List.length ([] : List Nat) < 0x40 ∧ AmlResImg.from_img [] = .ok ⟨0, 0, [], []⟩ :=
  ⟨by decide, by decide⟩

/-- C4 amended: the code performs no header-length check.  Any buffer
shorter than 0x40 bytes whose clamped item_count field reads zero parses
successfully into an Image whose header scalars are the clamped reads
and whose item list is empty. -/
theorem c4_short_header_parses (img : List Nat) (_h1 : img.length < 0x40)
    (h2 : uint32 img 0x18 = 0) :
    AmlResImg.from_img img =
      .ok ⟨uint32 img 0x00, uint32 img 0x04, pySlice img 0x08 0x10, []⟩ := by
  unfold AmlResImg.from_img
  rw [h2]
  rfl

/-- C4 witness: the amended theorem applied to the empty buffer. -/
theorem c4_witness :
    AmlResImg.from_img [] = .ok ⟨uint32 [] 0x00, uint32 [] 0x04, pySlice [] 0x08 0x10, []⟩ :=
  c4_short_header_parses [] (by decide) (by decide)

/-- C5: whenever parse succeeds, the number of decoded items equals the
32-bit little-endian item_count at offset 0x18, and the i-th returned
item is the successful decode of the fixed 0x240-byte record at buffer
offset 0x40 + 0x240 * i. -/
theorem c5_item_table (img : List Nat) (res : AmlResImg)
    (h : AmlResImg.from_img img = .ok res) :
    res.items.length = uint32 img 0x18 ∧
    ∀ i (hi : i < res.items.length),
      AmlResItem.from_img (pySlice img (0x40 + 0x240 * i) (0x40 + 0x240 * i + 0x240)) img =
        .ok (res.items.get ⟨i, hi⟩) := by
  obtain ⟨hloop, -, -, -⟩ := img_from_img_ok img res h
  obtain ⟨hlen, hget⟩ := parseItemsAux_ok img (uint32 img 0x18) 0 res.items hloop
  refine ⟨hlen, fun i hi => ?_⟩
  have hok := hget i hi
  simpa [parseItemAt] using hok

/-- C5 witness: applied to the one-item image buf1. -/
theorem c5_witness : res1.items.length = uint32 buf1 0x18 :=
  (c5_item_table buf1 res1 (by decide)).1

/-- C6: trailing-null trimming removes exactly the trailing null bytes
and nothing else: it is idempotent, the input is the trimmed output
followed by null bytes only (so no non-null byte and no interior null is
ever removed), the trimmed output never ends in a null byte, an interior
null survives trimming as the a-null-b example shows, and a name field
holding disk1.img padded with nulls decodes to exactly disk1.img. -/
theorem c6_rstrip_exact :
    (∀ l : List Nat, rstripZero (rstripZero l) = rstripZero l) ∧
    (∀ l : List Nat, l = rstripZero l ++ List.replicate (l.length - (rstripZero l).length) 0) ∧
    (∀ l : List Nat, (rstripZero l).getLast? ≠ some 0) ∧
    rstripZero ([97, 0, 98] ++ List.replicate 253 0) = [97, 0, 98] ∧
    AmlResItem.from_img recDisk [] = .ok ⟨0, 0, [], diskName, false, []⟩ :=
  ⟨rstripZero_idem, rstripZero_spec, rstripZero_getLast?, by decide, by decide⟩

/-- C7: to_flash is exactly bit zero of the flag byte at local offset
0x220: every successfully decoded record stores flagbyte AND 1 == 1; a
record differing only in its flag byte decodes for every flag value (no
value is invalid), and flag bytes 0x02 and 0x03 decode to false and
true respectively. -/
theorem c7_to_flash_bit0 :
    (∀ item img it b, AmlResItem.from_img item img = .ok it →
      item[0x220]? = some b → it.to_flash = (b &&& 1 == 1)) ∧
    (∀ b, AmlResItem.from_img (flagRec b) [] = .ok ⟨0, 0, [], [], b &&& 1 == 1, []⟩) ∧
    AmlResItem.from_img (flagRec 2) [] = .ok ⟨0, 0, [], [], false, []⟩ ∧
    AmlResItem.from_img (flagRec 3) [] = .ok ⟨0, 0, [], [], true, []⟩ := by
  refine ⟨?_, from_img_flagRec, by decide, by decide⟩
  intro item img it b h hb
  obtain ⟨-, -, -, -, ⟨b2, hb2, hf⟩, -⟩ := from_img_ok item img it h
  rw [hb] at hb2
  injection hb2 with heq
  rw [heq]
  exact hf

/-- C7 witness: the bit-zero rule applied to a concrete record with
flag byte 3. -/
theorem c7_witness : item7.to_flash = (3 &&& 1 == 1) :=
  c7_to_flash_bit0.1 (flagRec 3) [] item7 3 (by decide) (by decide)

/-- C8 counterexample: buf8 fails in the type field of item 0 and buf8b
in the name field of item 0, yet both raise the very same bare
UnicodeDecodeError value: the raised error identifies neither the item
index nor the failing field, so no InvalidItemText error carrying that
context exists in the code. -/
theorem c8_counterexample :
    AmlResImg.from_img buf8 = .error .unicodeDecodeError ∧
    AmlResImg.from_img buf8b = .error .unicodeDecodeError ∧
    AmlResImg.from_img buf8 = AmlResImg.from_img buf8b :=
  ⟨by decide, by decide, by decide⟩

/-- C8 amended: decoding a record raises UnicodeDecodeError (the
undifferentiated error Python reports, carrying no item index and no
field name) exactly when the trailing-null-trimmed bytes of its type
field or of its name field are not valid UTF-8; otherwise both fields
decode successfully. -/
theorem c8_invalid_text_iff (item img : List Nat) :
    AmlResItem.from_img item img = .error .unicodeDecodeError ↔
      (utf8Valid (rstripZero (pySlice item 0x20 0x120)) = false ∨
       utf8Valid (rstripZero (pySlice item 0x120 0x220)) = false) := by
  cases ht : utf8Valid (rstripZero (pySlice item 0x20 0x120)) with
  | false =>
    unfold AmlResItem.from_img
    rw [show pyDecode (rstripZero (pySlice item 0x20 0x120)) = .error .unicodeDecodeError
      from by simp [pyDecode, ht]]
    exact iff_of_true rfl (Or.inl rfl)
  | true =>
    cases hn : utf8Valid (rstripZero (pySlice item 0x120 0x220)) with
    | false =>
      unfold AmlResItem.from_img
      rw [show pyDecode (rstripZero (pySlice item 0x20 0x120)) =
          .ok (rstripZero (pySlice item 0x20 0x120)) from by simp [pyDecode, ht]]
      rw [show pyDecode (rstripZero (pySlice item 0x120 0x220)) = .error .unicodeDecodeError
        from by simp [pyDecode, hn]]
      exact iff_of_true rfl (Or.inr rfl)
    | true =>
      unfold AmlResItem.from_img
      rw [show pyDecode (rstripZero (pySlice item 0x20 0x120)) =
          .ok (rstripZero (pySlice item 0x20 0x120)) from by simp [pyDecode, ht]]
      rw [show pyDecode (rstripZero (pySlice item 0x120 0x220)) =
          .ok (rstripZero (pySlice item 0x120 0x220)) from by simp [pyDecode, hn]]
      apply iff_of_false
      · intro hcontra
        cases hb : item[0x220]? with
        | none =>
          rw [hb] at hcontra
          have hcontra2 : (Except.error PyErr.indexError : Except PyErr AmlResItem) =
              .error .unicodeDecodeError := hcontra
          exact absurd hcontra2 (by decide)
        | some b =>
          rw [hb] at hcontra
          exact Except.noConfusion
            (show Except.ok _ = Except.error PyErr.unicodeDecodeError from hcontra)
      · rintro (hcon | hcon)
        · exact Bool.noConfusion hcon
        · exact Bool.noConfusion hcon

/-- C9: every record processed without an exception carries as payload
the Python-clamped slice img[start : start + size]; its length equals
min(len, start + size) - min(len, start) (truncated subtraction playing
the role of max(0, .)), hence never exceeds size, and when start + size
overruns the buffer the payload is silently truncated with no error. -/
theorem c9_payload_python_slice (item img : List Nat) (it : AmlResItem)
    (h : AmlResItem.from_img item img = .ok it) :
    it.data = pySlice img it.start (it.start + it.size) ∧
    it.data.length = min img.length (it.start + it.size) - min img.length it.start ∧
    it.data.length ≤ it.size := by
  obtain ⟨hst, hsz, -, -, -, hd⟩ := from_img_ok item img it h
  have h1 : it.data = pySlice img it.start (it.start + it.size) := by
    rw [hd, hst, hsz]
  refine ⟨h1, ?_, ?_⟩
  · rw [h1, pySlice_length]
    omega
  · rw [h1, pySlice_length]
    omega

/-- C9 witness: the oversized record of buf2 parses with its payload
silently truncated to the whole 640-byte buffer, far below the declared
size of 2 ^ 40. -/
theorem c9_witness :
    item2.data = pySlice buf2 item2.start (item2.start + item2.size) ∧
    item2.data.length = min buf2.length (item2.start + item2.size) - min buf2.length item2.start ∧
    item2.data.length ≤ item2.size :=
  c9_payload_python_slice (pySlice buf2 0x40 0x280) buf2 item2 (by decide)

/-- C10 counterexample: the record slice of buf7 holds 0x30 bytes, so
the buffer ends long before the flag byte, and index 0 is reached by the
loop; yet parse aborts with UnicodeDecodeError, raised by the earlier
type-field decode, not with the IndexError the claim requires. -/
theorem c10_counterexample :
    (pySlice buf7 0x40 0x280).length ≤ 0x220 ∧
    AmlResImg.from_img buf7 = .error .unicodeDecodeError ∧
    AmlResImg.from_img buf7 ≠ .error .indexError :=
  ⟨by decide, by decide, by decide⟩

/-- C10 amended: if the loop reaches index i (the first i records decode
successfully and i is below item_count), the record slice at index i
holds at most 0x220 bytes, and its clamped, trimmed type and name fields
are valid UTF-8 (those decodes run before the flag access), then the
flag-byte read item[0x220] raises IndexError and parse aborts with that
uncaught IndexError, which is none of the named errors of the
specification. -/
theorem c10_short_record_indexerror (img : List Nat) (i : Nat) (pre : List AmlResItem)
    (hcnt : i < uint32 img 0x18)
    (hpre : parseItemsAux img 0 i = .ok pre)
    (hlen : (pySlice img (0x40 + 0x240 * i) (0x40 + 0x240 * i + 0x240)).length ≤ 0x220)
    (ht : utf8Valid (rstripZero (pySlice
      (pySlice img (0x40 + 0x240 * i) (0x40 + 0x240 * i + 0x240)) 0x20 0x120)) = true)
    (hn : utf8Valid (rstripZero (pySlice
      (pySlice img (0x40 + 0x240 * i) (0x40 + 0x240 * i + 0x240)) 0x120 0x220)) = true) :
    AmlResImg.from_img img = .error .indexError := by
  have herr : parseItemAt img (0 + i) = .error .indexError := by
    rw [Nat.zero_add]
    unfold parseItemAt
    exact from_img_short _ img hlen ht hn
  have hloop := parseItemsAux_error_of img i 0 (uint32 img 0x18) pre .indexError hpre herr hcnt
  unfold AmlResImg.from_img
  rw [hloop]

/-- C10 witness: applied to buf3 at index 1, whose record slice is
empty. -/
theorem c10_witness : AmlResImg.from_img buf3 = .error .indexError :=
  c10_short_record_indexerror buf3 1 [⟨0, 0, [], [], false, []⟩]
    (by decide) (by decide) (by decide) (by decide) (by decide)
